import Mathlib

/-!
Verification of the odrive-rust CAN client (crates `cansimple` and `odrive`).

The embedding mirrors the Rust source:
- `Id` models `cansimple::Id` (an 11-bit arbitration identifier over `u16`);
- `Value`, `ValueKind` model the typed parameter codec of `odrive::can`;
  an `f32` is represented by its IEEE-754 single-precision bit pattern,
  since the code only ever moves floats through `to_le_bytes` /
  `from_le_bytes` (no float arithmetic occurs anywhere in the crate);
- `sdoRead` models the receive/decode phase of `ODrive::sdo_read`;
- `AxisErrors.from_bits_truncate` models the bitflags decode used by
  `ODrive::get_error`;
- `Json` and `FlatEndpoints.from_json` model the endpoint-directory
  construction of `odrive::flat_endpoints`.

Machine integers are modelled as `Nat` (unsigned) or `Int` (signed) with
explicit bounds/`%` where the width matters.
-/

namespace cansimple

/-- The 11-bit identifier mask `ID_MASK` of `cansimple` (`0x7FF`). -/
def ID_MASK : Nat := 0x7FF

/-- Model of `cansimple::Id`: a `u16` holding an 11-bit arbitration id. -/
structure Id where
  raw : Nat
  deriving DecidableEq, Repr

/-- `Id::new(node, command)`: succeeds iff `node <= 63` and `command <= 31`,
packing the fields as `(node << 5) | command`. -/
def Id.new (node command : Nat) : Option Id :=
  if node ≤ 0b111111 ∧ command ≤ 0b11111 then
    some ⟨(node <<< 5) ||| command⟩
  else
    none

/-- `Id::from_raw(raw)`: masks to 11 bits, never fails. -/
def Id.from_raw (raw : Nat) : Id := ⟨raw &&& ID_MASK⟩

/-- `Id::as_raw`. -/
def Id.as_raw (i : Id) : Nat := i.raw

/-- `Id::command`: the low 5 bits. -/
def Id.command (i : Id) : Nat := i.raw &&& 0x1F

/-- `Id::node`: the bits above the command field. -/
def Id.node (i : Id) : Nat := i.raw >>> 5

/-- In-range construction yields the packed identifier. -/
lemma Id.new_eq_of_le (node command : Nat) (hn : node ≤ 63) (hc : command ≤ 31) :
    Id.new node command = some ⟨(node <<< 5) ||| command⟩ := by
  simp [Id.new, hn, hc]

/-- Claim C3: for every node in 0..=63 and command in 0..=31,
`Id::new(node, command)` succeeds with raw value `(node << 5) | command`,
and the `node()` and `command()` accessors applied to the result return
exactly the original node and command. -/
theorem id_new_roundtrip (node command : Nat)
    (hn : node ≤ 63) (hc : command ≤ 31) :
    Id.new node command = some ⟨(node <<< 5) ||| command⟩ ∧
      Id.node ⟨(node <<< 5) ||| command⟩ = node ∧
      Id.command ⟨(node <<< 5) ||| command⟩ = command := by
  have key : ∀ n < 64, ∀ c < 32,
      Id.new n c = some ⟨(n <<< 5) ||| c⟩ ∧
        Id.node ⟨(n <<< 5) ||| c⟩ = n ∧
        Id.command ⟨(n <<< 5) ||| c⟩ = c := by decide
  exact key node (by omega) command (by omega)

/-- Witness for C3 at node 1, command 9 (the crate's own test vector,
`Id::new(1, 9).as_raw() == 0x029`). -/
theorem id_new_roundtrip_witness :
    Id.new 1 9 = some ⟨0x029⟩ ∧
      Id.node ⟨0x029⟩ = 1 ∧ Id.command ⟨0x029⟩ = 9 :=
  id_new_roundtrip 1 9 (by decide) (by decide)

/-- Claim C8: `Id::new(node, command)` fails iff `node > 63` or
`command > 31`; in particular `Id::new(64, 0)` and `Id::new(0, 32)` both
fail, and every in-range pair yields an identifier. -/
theorem id_new_fails_iff_out_of_range :
    (∀ node command : Nat, node < 256 → command < 256 →
      (Id.new node command = none ↔ 63 < node ∨ 31 < command)) ∧
    Id.new 64 0 = none ∧ Id.new 0 32 = none := by
  refine ⟨?_, by decide, by decide⟩
  intro node command _ _
  unfold Id.new
  split
  next h =>
    constructor
    · intro hx
      exact Option.noConfusion hx
    · intro hx
      omega
  next h =>
    constructor
    · intro _
      omega
    · intro _
      rfl

/-- Witness for C8: the characterization instantiated at node 64, command 0. -/
theorem id_new_fails_iff_out_of_range_witness :
    Id.new 64 0 = none ↔ 63 < 64 ∨ 31 < 0 :=
  id_new_fails_iff_out_of_range.1 64 0 (by decide) (by decide)

end cansimple

namespace odrive

/-- Model of `odrive::can::ValueKind`. -/
inductive ValueKind where
  | Bool
  | U8
  | I8
  | U16
  | I16
  | U32
  | I32
  | Float
  deriving DecidableEq, Repr

/-- Model of `odrive::can::Value`. Unsigned payloads are `Nat`, signed
payloads are `Int`; a `Float` payload is the IEEE-754 single-precision
bit pattern of the `f32` (the crate never computes with floats, it only
moves their bytes, so the bit pattern is the whole state). -/
inductive Value where
  | Bool (b : Bool)
  | U8 (u : Nat)
  | I8 (i : Int)
  | U16 (u : Nat)
  | I16 (i : Int)
  | U32 (u : Nat)
  | I32 (i : Int)
  | Float (bits : Nat)
  deriving DecidableEq, Repr

/-- Well-formedness: each payload fits the machine width of its kind
(a Rust value of the corresponding type always satisfies this). -/
def Value.wf : Value → Prop
  | .Bool _ => True
  | .U8 u => u < 2 ^ 8
  | .I8 i => -(2 ^ 7) ≤ i ∧ i < 2 ^ 7
  | .U16 u => u < 2 ^ 16
  | .I16 i => -(2 ^ 15) ≤ i ∧ i < 2 ^ 15
  | .U32 u => u < 2 ^ 32
  | .I32 i => -(2 ^ 31) ≤ i ∧ i < 2 ^ 31
  | .Float bits => bits < 2 ^ 32

instance (v : Value) : Decidable v.wf := by
  cases v <;> simp [Value.wf] <;> infer_instance

/-- The kind a `Value` carries (the tag of the tagged union). -/
def Value.kind : Value → ValueKind
  | .Bool _ => .Bool
  | .U8 _ => .U8
  | .I8 _ => .I8
  | .U16 _ => .U16
  | .I16 _ => .I16
  | .U32 _ => .U32
  | .I32 _ => .I32
  | .Float _ => .Float

/-- Little-endian bytes of a nonnegative 16-bit two's-complement image of
an `Int` (`iN::to_le_bytes` is two's complement, i.e. the value mod 2^N). -/
def twosComplement (w : Nat) (i : Int) : Nat := (i % (2 ^ w)).toNat

/-- Model of `Value::to_le_bytes` (can.rs:607-618): exactly 4 bytes,
little-endian, unused trailing bytes zero. -/
def Value.to_le_bytes : Value → List Nat
  | .Bool b => [if b then 1 else 0, 0, 0, 0]
  | .U8 u => [u % 256, 0, 0, 0]
  | .I8 i => [twosComplement 8 i % 256, 0, 0, 0]
  | .U16 u => [u % 256, u / 256 % 256, 0, 0]
  | .I16 i => [twosComplement 16 i % 256, twosComplement 16 i / 256 % 256, 0, 0]
  | .U32 u => [u % 256, u / 256 % 256, u / 2 ^ 16 % 256, u / 2 ^ 24 % 256]
  | .I32 i =>
      [twosComplement 32 i % 256, twosComplement 32 i / 256 % 256,
        twosComplement 32 i / 2 ^ 16 % 256, twosComplement 32 i / 2 ^ 24 % 256]
  | .Float bits =>
      [bits % 256, bits / 256 % 256, bits / 2 ^ 16 % 256, bits / 2 ^ 24 % 256]

/-- Signed reading of a `w`-bit little-endian word (`iN::from_le_bytes`). -/
def fromTwosComplement (w : Nat) (n : Nat) : Int :=
  if n < 2 ^ (w - 1) then (n : Int) else (n : Int) - 2 ^ w

/-- Model of the decode `match` at the end of `ODrive::sdo_read`
(can.rs:147-158): the four value bytes are combined per the
caller-supplied kind; `Bool` is true iff byte 0 equals 1. -/
def decodeValue (kind : ValueKind) (b0 b1 b2 b3 : Nat) : Value :=
  match kind with
  | .Bool => .Bool (b0 == 1)
  | .U8 => .U8 b0
  | .I8 => .I8 (fromTwosComplement 8 b0)
  | .U16 => .U16 (b0 + 256 * b1)
  | .I16 => .I16 (fromTwosComplement 16 (b0 + 256 * b1))
  | .U32 => .U32 (b0 + 256 * b1 + 2 ^ 16 * b2 + 2 ^ 24 * b3)
  | .I32 => .I32 (fromTwosComplement 32 (b0 + 256 * b1 + 2 ^ 16 * b2 + 2 ^ 24 * b3))
  | .Float => .Float (b0 + 256 * b1 + 2 ^ 16 * b2 + 2 ^ 24 * b3)

/-- The IEEE-754 single-precision bit pattern of `1.234f32`
(sign 0, exponent 127, mantissa 0x1df3b6); the crate's `value_to_bytes`
test pins its little-endian bytes to `[0xb6, 0xf3, 0x9d, 0x3f]`. -/
def float1234bits : Nat := 0x3f9df3b6

/-- Two's-complement encode/decode inverts on in-range 8-bit integers. -/
lemma fromTwos_twos_8 (i : Int) (hlo : -(2 ^ 7) ≤ i) (hhi : i < 2 ^ 7) :
    fromTwosComplement 8 (twosComplement 8 i % 256) = i := by
  simp only [fromTwosComplement, twosComplement]
  norm_num at hlo hhi ⊢
  split <;> omega

/-- Two's-complement encode/decode inverts on in-range 16-bit integers. -/
lemma fromTwos_twos_16 (i : Int) (hlo : -(2 ^ 15) ≤ i) (hhi : i < 2 ^ 15) :
    fromTwosComplement 16
      (twosComplement 16 i % 256 + 256 * (twosComplement 16 i / 256 % 256)) = i := by
  simp only [fromTwosComplement, twosComplement]
  norm_num at hlo hhi ⊢
  split <;> omega

/-- Two's-complement encode/decode inverts on in-range 32-bit integers. -/
lemma fromTwos_twos_32 (i : Int) (hlo : -(2 ^ 31) ≤ i) (hhi : i < 2 ^ 31) :
    fromTwosComplement 32
      (twosComplement 32 i % 256 + 256 * (twosComplement 32 i / 256 % 256) +
        2 ^ 16 * (twosComplement 32 i / 2 ^ 16 % 256) +
        2 ^ 24 * (twosComplement 32 i / 2 ^ 24 % 256)) = i := by
  simp only [fromTwosComplement, twosComplement]
  norm_num at hlo hhi ⊢
  split <;> omega

/-- Claim C4: for every `ValueKind` and every value of that kind, decoding
the 4-byte encoding of the value with the same kind returns the original
value bit-for-bit; in particular `Value::Float(1.234)` encodes to
`[0xb6, 0xf3, 0x9d, 0x3f]`. -/
theorem value_codec_roundtrip :
    (∀ v : Value, v.wf →
      decodeValue v.kind (v.to_le_bytes.getD 0 0) (v.to_le_bytes.getD 1 0)
        (v.to_le_bytes.getD 2 0) (v.to_le_bytes.getD 3 0) = v) ∧
    (Value.Float float1234bits).to_le_bytes = [0xb6, 0xf3, 0x9d, 0x3f] := by
  constructor
  · intro v hwf
    cases v with
    | Bool b => cases b <;> rfl
    | U8 u =>
      simp only [Value.wf] at hwf
      simp only [Value.kind, Value.to_le_bytes, decodeValue, List.getD_cons_zero, List.getD_cons_succ]
      congr 1
      omega
    | I8 i =>
      obtain ⟨hlo, hhi⟩ := hwf
      simp only [Value.kind, Value.to_le_bytes, decodeValue, List.getD_cons_zero, List.getD_cons_succ]
      exact congrArg Value.I8 (fromTwos_twos_8 i hlo hhi)
    | U16 u =>
      simp only [Value.wf] at hwf
      simp only [Value.kind, Value.to_le_bytes, decodeValue, List.getD_cons_zero, List.getD_cons_succ]
      congr 1
      omega
    | I16 i =>
      obtain ⟨hlo, hhi⟩ := hwf
      simp only [Value.kind, Value.to_le_bytes, decodeValue, List.getD_cons_zero, List.getD_cons_succ]
      exact congrArg Value.I16 (fromTwos_twos_16 i hlo hhi)
    | U32 u =>
      simp only [Value.wf] at hwf
      simp only [Value.kind, Value.to_le_bytes, decodeValue, List.getD_cons_zero, List.getD_cons_succ]
      congr 1
      omega
    | I32 i =>
      obtain ⟨hlo, hhi⟩ := hwf
      simp only [Value.kind, Value.to_le_bytes, decodeValue, List.getD_cons_zero, List.getD_cons_succ]
      exact congrArg Value.I32 (fromTwos_twos_32 i hlo hhi)
    | Float bits =>
      simp only [Value.wf] at hwf
      simp only [Value.kind, Value.to_le_bytes, decodeValue, List.getD_cons_zero, List.getD_cons_succ]
      congr 1
      omega
  · rfl

/-- Witness for C4: the round trip instantiated at `Float(1.234)`
(bit pattern `0x3f9df3b6`). -/
theorem value_codec_roundtrip_witness :
    decodeValue ValueKind.Float 0xb6 0xf3 0x9d 0x3f = Value.Float float1234bits := by
  have h := value_codec_roundtrip.1 (Value.Float float1234bits) (by decide)
  simpa using h

/-- Claim C5: `Value::to_le_bytes` is total and always produces exactly
4 bytes, little-endian, left-packed: for Bool and the 8-bit kinds
bytes 1..4 are zero, for the 16-bit kinds bytes 2..4 are zero, and the
32-bit kinds occupy all 4 bytes. -/
theorem value_to_le_bytes_shape :
    ∀ v : Value,
      v.to_le_bytes.length = 4 ∧
      ((v.kind = .Bool ∨ v.kind = .U8 ∨ v.kind = .I8) →
        v.to_le_bytes.drop 1 = [0, 0, 0]) ∧
      ((v.kind = .U16 ∨ v.kind = .I16) → v.to_le_bytes.drop 2 = [0, 0]) := by
  intro v
  cases v <;> simp [Value.to_le_bytes, Value.kind]

/-- Witness for C5: the shape property instantiated at `U16 0xabcd`
(trailing two bytes zero) with its antecedent discharged. -/
theorem value_to_le_bytes_shape_witness :
    (Value.U16 0xabcd).to_le_bytes.drop 2 = [0, 0] :=
  (value_to_le_bytes_shape (Value.U16 0xabcd)).2.2 (Or.inl rfl)

/-- An inbound CAN frame as the driver sees it: the raw standard
arbitration identifier and the payload bytes (`frame.id()`,
`frame.data()`). -/
structure CanFrame where
  id : Nat
  data : List Nat
  deriving DecidableEq, Repr

/-- Outcome of running `ODrive::sdo_read`'s receive loop against a
finite inbound stream. `blocked` models the loop still waiting after the
given frames (it has no timeout); `panicked` models a Rust panic such as
an out-of-bounds payload index. -/
inductive SdoOutcome where
  | ok (v : Value)
  | dataIntegrityError
  | blocked
  | panicked
  deriving DecidableEq, Repr

/-- The endpoint id echoed in a reply payload:
`u16::from_le_bytes([frame.data()[1], frame.data()[2]])` (can.rs:131). -/
def echoedEndpoint (f : CanFrame) : Nat :=
  f.data.getD 1 0 + 256 * f.data.getD 2 0

/-- Model of the receive loop of `ODrive::sdo_read` (can.rs:128-158):
skip every frame whose identifier is not the parameter-reply identifier;
on an identifier match, read the echoed endpoint from payload bytes 1..3
(this indexing panics when the payload has fewer than 3 bytes), skip the
frame if the endpoint differs, otherwise require an 8-byte payload and
decode bytes 4..8 with the caller-supplied kind. -/
def sdoReadLoop (replyId endpoint : Nat) (kind : ValueKind) :
    List CanFrame → SdoOutcome
  | [] => .blocked
  | f :: rest =>
    if f.id = replyId then
      if 2 < f.data.length then
        if echoedEndpoint f = endpoint then
          if f.data.length = 8 then
            .ok (decodeValue kind (f.data.getD 4 0) (f.data.getD 5 0)
              (f.data.getD 6 0) (f.data.getD 7 0))
          else .dataIntegrityError
        else sdoReadLoop replyId endpoint kind rest
      else .panicked
    else sdoReadLoop replyId endpoint kind rest

/-- The parameter-reply identifier used by `sdo_read`:
`Id::new(axis, 0x05)` (can.rs:126). -/
def sdoReplyId (axis : Nat) : Nat := (axis <<< 5) ||| 0x05

/-- Model of the receive/decode phase of `ODrive::sdo_read`
(can.rs:126-158). The outbound request (can.rs:113-124) only performs
transport I/O and affects no claim, so it is not modelled; the inbound
stream is the list of frames `read_frame` yields. `Id::new(...).unwrap()`
panics when the axis is out of range. -/
def sdoRead (axis endpoint : Nat) (kind : ValueKind)
    (stream : List CanFrame) : SdoOutcome :=
  match cansimple.Id.new axis 0x05 with
  | some i => sdoReadLoop i.raw endpoint kind stream
  | none => .panicked

/-- Claim C1: in `sdo_read`, inbound frames whose identifier differs from
the parameter-reply identifier, or whose echoed endpoint id (payload
bytes 1..3, little-endian) differs from the requested endpoint, are
skipped without error, and the first matching frame's payload bytes 4..8
are decoded with the caller-supplied `ValueKind`; in particular a
matching reply carrying value bytes `[0xb6, 0xf3, 0x9d, 0x3f]` for kind
`Float` decodes to 1.234 (bit pattern `0x3f9df3b6`), and a reply echoing
endpoint 2 arriving first is skipped for a request targeting endpoint 1. -/
theorem sdo_read_skips_nonmatching_and_decodes_first_match :
    (∀ (axis endpoint : Nat) (kind : ValueKind)
      (pre : List CanFrame) (f : CanFrame) (rest : List CanFrame),
      axis ≤ 63 →
      (∀ g ∈ pre, g.id ≠ sdoReplyId axis ∨
        (2 < g.data.length ∧ echoedEndpoint g ≠ endpoint)) →
      f.id = sdoReplyId axis → f.data.length = 8 → echoedEndpoint f = endpoint →
      sdoRead axis endpoint kind (pre ++ f :: rest) =
        .ok (decodeValue kind (f.data.getD 4 0) (f.data.getD 5 0)
          (f.data.getD 6 0) (f.data.getD 7 0))) ∧
    sdoRead 1 1 ValueKind.Float
        [⟨0x25, [0, 2, 0, 0, 0, 0, 0, 0]⟩,
         ⟨0x25, [0, 1, 0, 0, 0xb6, 0xf3, 0x9d, 0x3f]⟩] =
      .ok (.Float float1234bits) := by
  constructor
  · intro axis endpoint kind pre f rest ha hpre hid hlen hep
    unfold sdoRead
    rw [cansimple.Id.new_eq_of_le axis 0x05 ha (by norm_num)]
    induction pre with
    | nil =>
      simp only [List.nil_append, sdoReadLoop, sdoReplyId] at hid ⊢
      rw [if_pos hid, if_pos (by omega), if_pos hep, if_pos hlen]
    | cons g gs ih =>
      have hg := hpre g (List.mem_cons_self g gs)
      have hrest : ∀ x ∈ gs, x.id ≠ sdoReplyId axis ∨
          (2 < x.data.length ∧ echoedEndpoint x ≠ endpoint) :=
        fun x hx => hpre x (List.mem_cons_of_mem g hx)
      simp only [List.cons_append, sdoReadLoop, sdoReplyId]
      rcases hg with hne | ⟨hglen, hgep⟩
      · rw [if_neg (by simpa [sdoReplyId] using hne)]
        exact ih hrest
      · by_cases hgid : g.id = (axis <<< 5) ||| 0x05
        · rw [if_pos hgid, if_pos hglen, if_neg hgep]
          exact ih hrest
        · rw [if_neg hgid]
          exact ih hrest
  · decide

/-- Witness for C1: the universally quantified part instantiated at
axis 1, endpoint 1, kind `Float`, with one skipped frame of a different
identifier, one skipped frame echoing endpoint 2, and then the matching
reply. -/
theorem sdo_read_skips_nonmatching_witness :
    sdoRead 1 1 ValueKind.Float
        [⟨0x009, [1, 2, 3]⟩,
         ⟨0x025, [0, 2, 0, 0, 9, 9, 9, 9]⟩,
         ⟨0x025, [0, 1, 0, 0, 0xb6, 0xf3, 0x9d, 0x3f]⟩] =
      .ok (.Float float1234bits) := by
  have h := sdo_read_skips_nonmatching_and_decodes_first_match.1
    1 1 ValueKind.Float
    [⟨0x009, [1, 2, 3]⟩, ⟨0x025, [0, 2, 0, 0, 9, 9, 9, 9]⟩]
    ⟨0x025, [0, 1, 0, 0, 0xb6, 0xf3, 0x9d, 0x3f]⟩ []
    (by norm_num) (by decide) (by decide) (by decide) (by decide)
  simpa using h

/-- Evaluation supporting the C2 code bug: a frame carrying the expected
parameter-reply identifier but a payload shorter than 3 bytes makes
`sdo_read` panic at `frame.data()[1]` (can.rs:131) — it is neither
skipped nor reported as a data-integrity error — while a matching frame
with a 7-byte payload echoing the requested endpoint is a data-integrity
error, and a frame with a different identifier is skipped whatever its
length (here leaving the loop waiting). -/
theorem sdo_read_short_matching_frame_panics :
    sdoRead 1 1 ValueKind.U32 [⟨0x25, [0]⟩] = .panicked ∧
    sdoRead 1 1 ValueKind.U32 [⟨0x25, [0, 1, 0, 0, 0, 0, 0]⟩] =
      .dataIntegrityError ∧
    sdoRead 1 1 ValueKind.U32 [⟨0x29, [0]⟩] = .blocked := by
  decide

/-- The named `AxisErrors` flag constants (lib.rs:14-36). -/
def axisErrorsNamedFlags : List Nat :=
  [0x1, 0x2, 0x4, 0x8, 0x10, 0x20, 0x40, 0x100, 0x200, 0x400, 0x800,
    0x1000, 0x2000, 0x4000, 0x8000, 0x10000, 0x1000000, 0x2000000,
    0x4000000, 0x8000000, 0x10000000, 0x40000000]

/-- The set of bits `bitflags` considers known for `AxisErrors`: the
union of the named constants and of the wildcard member `_ = !0`
(lib.rs:37), which declares every `u32` bit known. -/
def AxisErrors.all : Nat :=
  axisErrorsNamedFlags.foldl (fun a b => a ||| b) 0 ||| 0xFFFFFFFF

/-- `AxisErrors::from_bits_truncate`: keep the known bits of the word. -/
def AxisErrors.from_bits_truncate (bits : Nat) : Nat :=
  bits &&& AxisErrors.all

/-- Model of `odrive::can::Error` (the payload of the error message). -/
structure ErrorReply where
  active_errors : Nat
  disarm_reason : Nat
  deriving DecidableEq, Repr

/-- The payload decode of `ODrive::get_error` (can.rs:85-95): the two
32-bit little-endian words of an 8-byte reply, each passed through
`AxisErrors::from_bits_truncate`. -/
def errorFromData (data : List Nat) : ErrorReply where
  active_errors := AxisErrors.from_bits_truncate
    (data.getD 0 0 + 256 * data.getD 1 0 + 2 ^ 16 * data.getD 2 0 +
      2 ^ 24 * data.getD 3 0)
  disarm_reason := AxisErrors.from_bits_truncate
    (data.getD 4 0 + 256 * data.getD 5 0 + 2 ^ 16 * data.getD 6 0 +
      2 ^ 24 * data.getD 7 0)

/-- Claim C7: for every 32-bit word received in an error reply,
`get_error`'s decoding into `AxisErrors` retains all 32 bits, including
bits matching no named constant — `from_bits_truncate` is the identity
on 32-bit words, so the decoded reply carries the raw words verbatim. -/
theorem get_error_retains_all_bits :
    (∀ w : Nat, w < 2 ^ 32 → AxisErrors.from_bits_truncate w = w) ∧
    (∀ b0 b1 b2 b3 b4 b5 b6 b7 : Nat,
      b0 < 256 → b1 < 256 → b2 < 256 → b3 < 256 →
      b4 < 256 → b5 < 256 → b6 < 256 → b7 < 256 →
      errorFromData [b0, b1, b2, b3, b4, b5, b6, b7] =
        ⟨b0 + 256 * b1 + 2 ^ 16 * b2 + 2 ^ 24 * b3,
          b4 + 256 * b5 + 2 ^ 16 * b6 + 2 ^ 24 * b7⟩) := by
  have hall : AxisErrors.all = 2 ^ 32 - 1 := by decide
  have hid : ∀ w : Nat, w < 2 ^ 32 → AxisErrors.from_bits_truncate w = w := by
    intro w hw
    unfold AxisErrors.from_bits_truncate
    rw [hall, Nat.and_pow_two_sub_one_eq_mod]
    exact Nat.mod_eq_of_lt hw
  refine ⟨hid, ?_⟩
  intro b0 b1 b2 b3 b4 b5 b6 b7 h0 h1 h2 h3 h4 h5 h6 h7
  unfold errorFromData
  rw [hid _ (by simp only [List.getD_cons_zero, List.getD_cons_succ]; omega),
    hid _ (by simp only [List.getD_cons_zero, List.getD_cons_succ]; omega)]
  simp only [List.getD_cons_zero, List.getD_cons_succ]

/-- Witness for C7: a word setting only bits unknown to the compiled-in
table (bit 7 and bit 31) survives the decode unchanged. -/
theorem get_error_retains_all_bits_witness :
    AxisErrors.from_bits_truncate 0x80000080 = 0x80000080 :=
  get_error_retains_all_bits.1 0x80000080 (by norm_num)

/-- Model of the `ODrive` driver state: the axis number given to
`ODrive::new` (the CAN socket itself carries no driver state). -/
structure ODrive where
  axis : Nat
  deriving DecidableEq, Repr

/-- `ODrive::new(interface, axis)`: stores the axis unchecked. -/
def ODrive.new (axis : Nat) : ODrive := ⟨axis⟩

/-- Every fixed command number passed to `Id::new(self.axis, _)` by a
public `ODrive` method (can.rs: get_version 0x00, estop 0x02, get_error
0x03, sdo_write/sdo_read 0x04 and 0x05, set_axis_state 0x07,
get_encoder_estimates 0x09, set_controller_mode 0x0b, input setters
0x0c-0x0e, limits 0x0f, trajectory setters 0x11-0x13, get_iq 0x14,
get_temperature 0x15, reboot/save/erase/dfu 0x16, get_bus_voltage_current
0x17, clear_errors 0x18, set_absolute_position 0x19, gains 0x1a-0x1b,
get_torques 0x1c, get_powers 0x1d). -/
def odriveCommands : List Nat :=
  [0x00, 0x02, 0x03, 0x04, 0x05, 0x07, 0x09, 0x0b, 0x0c, 0x0d, 0x0e,
    0x0f, 0x11, 0x12, 0x13, 0x14, 0x15, 0x16, 0x17, 0x18, 0x19, 0x1a,
    0x1b, 0x1c, 0x1d]

/-- Claim C10: for every `ODrive` constructed with axis <= 63, the
arbitration-identifier construction `Id::new(axis, fixed_command)` of
every public operation succeeds, so no operation can panic at the
`.unwrap()` on identifier construction; and the constructor accepts any
u8 axis without checking this precondition. -/
theorem odrive_id_construction_never_panics :
    (∀ axis : Nat, axis ≤ 63 →
      ∀ c ∈ odriveCommands, (cansimple.Id.new axis c).isSome) ∧
    (∀ axis : Nat, axis < 256 → (ODrive.new axis).axis = axis) := by
  constructor
  · intro axis ha c hc
    have hc31 : c ≤ 31 := by
      have hall : ∀ x ∈ odriveCommands, x ≤ 31 := by decide
      exact hall c hc
    rw [cansimple.Id.new_eq_of_le axis c ha hc31]
    rfl
  · intro axis _
    rfl

/-- Witness for C10: identifier construction at axis 63 with the powers
command 0x1d, and the unchecked constructor at axis 255. -/
theorem odrive_id_construction_never_panics_witness :
    (cansimple.Id.new 63 0x1d).isSome ∧ (ODrive.new 255).axis = 255 :=
  ⟨odrive_id_construction_never_panics.1 63 (by norm_num) 0x1d (by decide),
    odrive_id_construction_never_panics.2 255 (by norm_num)⟩

/-- An already-parsed JSON document (the in-memory `serde_json::Value`
shape the directory loader consumes; numbers are restricted to the
integers, the only numeric values `as_u64` can accept). -/
inductive Json where
  | null
  | bool (b : Bool)
  | num (n : Int)
  | str (s : String)
  | arr (elems : List Json)
  | obj (fields : List (String × Json))

/-- `serde_json::Value::get` with a string key: a field lookup on an
object, `None` on every other value. -/
def Json.get : Json → String → Option Json
  | .obj fields, key => fields.lookup key
  | _, _ => none

/-- `serde_json::Value::as_str`. -/
def Json.as_str : Json → Option String
  | .str s => some s
  | _ => none

/-- `serde_json::Value::as_u64`: a nonnegative integer below 2^64. -/
def Json.as_u64 : Json → Option Nat
  | .num n => if 0 ≤ n ∧ n < 2 ^ 64 then some n.toNat else none
  | _ => none

/-- `serde_json::Value::as_object`. -/
def Json.as_object : Json → Option (List (String × Json))
  | .obj fields => some fields
  | _ => none

/-- `ValueKind::try_from(&serde_json::Value)` (can.rs:634-654): the value
must be a string naming one of the eight kinds. -/
def ValueKind.try_from (v : Json) : Option ValueKind :=
  match v.as_str with
  | none => none
  | some s =>
    if s = "bool" then some .Bool
    else if s = "uint8" then some .U8
    else if s = "int8" then some .I8
    else if s = "uint16" then some .U16
    else if s = "int16" then some .I16
    else if s = "uint32" then some .U32
    else if s = "int32" then some .I32
    else if s = "float" then some .Float
    else none

/-- One iteration of the `FlatEndpoints::from_json` loop body
(flat_endpoints.rs:29-41): the entry contributes `(id, kind)` exactly
when it has a recognized "type" string and an id accepted by `as_u64`;
otherwise the entry is skipped via `continue`. -/
def endpointEntry (ep : Json) : Option (Nat × ValueKind) :=
  match ep.get "type" with
  | none => none
  | some kindJson =>
    match ValueKind.try_from kindJson with
    | none => none
    | some kind =>
      match (ep.get "id").bind Json.as_u64 with
      | none => none
      | some id => some (id, kind)

/-- `HashMap::insert`: replace the binding of an existing key, otherwise
add a new binding. -/
def mapInsert (m : List (String × Nat × ValueKind)) (k : String)
    (v : Nat × ValueKind) : List (String × Nat × ValueKind) :=
  match m with
  | [] => [(k, v)]
  | (k2, v2) :: rest =>
    if k2 = k then (k, v) :: rest else (k2, v2) :: mapInsert rest k v

/-- Model of `odrive::flat_endpoints::FlatEndpoints`: the name to
`(id, ValueKind)` map (the hash map is modelled as an association list
looked up by key). -/
structure FlatEndpoints where
  entries : List (String × Nat × ValueKind)

/-- The accumulator update of the `from_json` loop: insert a parsed
entry, leave the map unchanged for a malformed one. -/
def fromJsonStep (m : List (String × Nat × ValueKind))
    (e : String × Json) : List (String × Nat × ValueKind) :=
  match endpointEntry e.2 with
  | none => m
  | some p => mapInsert m e.1 p

/-- `FlatEndpoints::from_json` (flat_endpoints.rs:22-44): requires a
top-level "endpoints" object (otherwise `None`), then folds over its
entries, inserting each entry that parses and skipping the rest. -/
def FlatEndpoints.from_json (input : Json) : Option FlatEndpoints :=
  match (input.get "endpoints").bind Json.as_object with
  | none => none
  | some endpoints => some ⟨endpoints.foldl fromJsonStep []⟩

/-- `FlatEndpoints::get` (flat_endpoints.rs:49-51). -/
def FlatEndpoints.get (fe : FlatEndpoints) (name : String) :
    Option (Nat × ValueKind) :=
  fe.entries.lookup name

/-- Inserting binds the inserted key. -/
lemma lookup_mapInsert_self (m : List (String × Nat × ValueKind))
    (k : String) (v : Nat × ValueKind) :
    (mapInsert m k v).lookup k = some v := by
  induction m with
  | nil => simp [mapInsert, List.lookup]
  | cons e rest ih =>
    obtain ⟨k2, v2⟩ := e
    by_cases h : k2 = k
    · simp [mapInsert, h, List.lookup]
    · simp only [mapInsert, if_neg h, List.lookup]
      rw [beq_eq_false_iff_ne.mpr fun hx => h hx.symm]
      exact ih

/-- Inserting leaves other keys unchanged. -/
lemma lookup_mapInsert_ne (m : List (String × Nat × ValueKind))
    (k name : String) (v : Nat × ValueKind) (h : name ≠ k) :
    (mapInsert m k v).lookup name = m.lookup name := by
  induction m with
  | nil =>
    simp only [mapInsert, List.lookup]
    rw [beq_eq_false_iff_ne.mpr h]
  | cons e rest ih =>
    obtain ⟨k2, v2⟩ := e
    by_cases hk : k2 = k
    · subst hk
      simp only [mapInsert, if_pos rfl, List.lookup]
      rw [beq_eq_false_iff_ne.mpr h]
    · simp only [mapInsert, if_neg hk, List.lookup]
      cases hbe : (name == k2) with
      | true => rfl
      | false => exact ih

/-- A key absent from the key list is absent from the lookup. -/
lemma lookup_eq_none_of_not_mem_keys {β : Type} (l : List (String × β))
    (k : String) (h : k ∉ l.map Prod.fst) : l.lookup k = none := by
  induction l with
  | nil => rfl
  | cons e rest ih =>
    obtain ⟨k2, v2⟩ := e
    simp only [List.map_cons, List.mem_cons] at h
    push_neg at h
    simp only [List.lookup]
    rw [beq_eq_false_iff_ne.mpr h.1]
    exact ih h.2

/-- What the `from_json` fold binds each name to, for an entry list with
distinct keys: the parse of that name's entry when it parses, otherwise
whatever the accumulator already bound. -/
lemma lookup_foldl_fromJsonStep (es : List (String × Json))
    (name : String) (hnd : (es.map Prod.fst).Nodup) :
    ∀ acc : List (String × Nat × ValueKind),
      (es.foldl fromJsonStep acc).lookup name =
        match es.lookup name with
        | none => acc.lookup name
        | some j =>
          match endpointEntry j with
          | none => acc.lookup name
          | some p => some p := by
  induction es with
  | nil => intro acc; rfl
  | cons e rest ih =>
    intro acc
    obtain ⟨k, j⟩ := e
    simp only [List.map_cons, List.nodup_cons] at hnd
    obtain ⟨hk, hnd2⟩ := hnd
    simp only [List.foldl_cons]
    rw [ih hnd2]
    by_cases hname : name = k
    · subst hname
      rw [lookup_eq_none_of_not_mem_keys rest name hk]
      simp only [List.lookup, beq_self_eq_true]
      unfold fromJsonStep
      cases hj : endpointEntry j with
      | none => rfl
      | some p => exact lookup_mapInsert_self acc name p
    · have hstep : (fromJsonStep acc (k, j)).lookup name = acc.lookup name := by
        unfold fromJsonStep
        cases hj : endpointEntry j with
        | none => rfl
        | some p => exact lookup_mapInsert_ne acc k name p hname
      simp only [List.lookup]
      rw [beq_eq_false_iff_ne.mpr hname]
      cases hr : rest.lookup name with
      | none => simpa using hstep
      | some j2 =>
        cases hj2 : endpointEntry j2 with
        | none => simpa [hj2] using hstep
        | some p => simp [hj2]

/-- Counterexample to claim C6 as stated: on a document without a
top-level "endpoints" object, `FlatEndpoints::from_json` fails as a
whole (returns `None`), yielding no directory at all. -/
theorem from_json_fails_without_endpoints_object :
    FlatEndpoints.from_json (Json.obj []) = none := rfl

/-- Claim C6 (amended): `FlatEndpoints::from_json` succeeds exactly when
the document carries a top-level "endpoints" object; it then yields a
directory binding each name (keys being distinct, as in a JSON object)
to its entry's `(id, kind)` exactly when the entry has both a recognized
"type" string and a nonnegative-integer "id", and silently drops each
malformed entry rather than failing. -/
theorem from_json_lenient :
    (∀ (input : Json) (es : List (String × Json)),
      input.get "endpoints" = some (Json.obj es) →
      (es.map Prod.fst).Nodup →
      ∃ fe, FlatEndpoints.from_json input = some fe ∧
        ∀ name : String,
          fe.get name = (es.lookup name).bind endpointEntry) ∧
    (∀ input : Json,
      (input.get "endpoints").bind Json.as_object = none →
      FlatEndpoints.from_json input = none) := by
  constructor
  · intro input es hobj hnd
    refine ⟨⟨es.foldl fromJsonStep []⟩, ?_, ?_⟩
    · unfold FlatEndpoints.from_json
      rw [hobj]
      rfl
    · intro name
      unfold FlatEndpoints.get
      simp only
      rw [lookup_foldl_fromJsonStep es name hnd []]
      cases hr : es.lookup name with
      | none => rfl
      | some j =>
        cases hj : endpointEntry j with
        | none => simp [Option.bind, hj]
        | some p => simp [Option.bind, hj]
  · intro input hnone
    unfold FlatEndpoints.from_json
    rw [hnone]

/-- Witness for C6 (amended): the spec's example document extended with
a malformed entry lacking a "type" field; construction succeeds, the
well-formed entry is found, the malformed one is dropped, and an unknown
name is absent. -/
theorem from_json_lenient_witness :
    ∃ fe,
      FlatEndpoints.from_json (Json.obj [("endpoints", Json.obj
        [("vbus_voltage", Json.obj
          [("id", Json.num 1), ("type", Json.str "float"),
            ("access", Json.str "r")]),
         ("bad", Json.obj [("id", Json.num 2)])])]) = some fe ∧
      fe.get "vbus_voltage" = some (1, ValueKind.Float) ∧
      fe.get "bad" = none ∧
      fe.get "missing" = none := by
  obtain ⟨fe, h1, h2⟩ := from_json_lenient.1
    (Json.obj [("endpoints", Json.obj
      [("vbus_voltage", Json.obj
        [("id", Json.num 1), ("type", Json.str "float"),
          ("access", Json.str "r")]),
       ("bad", Json.obj [("id", Json.num 2)])])])
    [("vbus_voltage", Json.obj
      [("id", Json.num 1), ("type", Json.str "float"),
        ("access", Json.str "r")]),
     ("bad", Json.obj [("id", Json.num 2)])]
    rfl (by decide)
  refine ⟨fe, h1, ?_, ?_, ?_⟩
  · rw [h2 "vbus_voltage"]
    rfl
  · rw [h2 "bad"]
    rfl
  · rw [h2 "missing"]
    rfl

end odrive
